import Mathlib

/-!
Verification of the model-order selection strategies in
`my_model_selectors.py` (Sign-Language-Recognition-System).

The Python module is embedded shallowly:

* feature matrices are lists of rational feature rows (`Mat`);
* the external trainer (`hmmlearn.GaussianHMM`) is an opaque `Oracle`
  giving the result of every `fit` and `score` call, together with the
  fitted model's `n_features` attribute and `np.log`;
* Python exceptions are values of `PyErr`; a computation is a `TraceM`
  action, i.e. a state-passing function that threads the list of
  trainer calls made so far (the *trace*) and returns
  `Except PyErr α`.  `try/except` becomes `tryExcept`;
* each selector class' `select` method is translated statement by
  statement; the candidate sweep loops become structural recursion
  (`foldM`, `dicInner`).
-/

deriving instance DecidableEq for Except

namespace HmmSel

/-- A Python exception kind, as distinguished by the `except` clauses of
the source (`ValueError`, `ZeroDivisionError`, the `NameError` that an
unbound local raises, and any other exception class). -/
inductive PyErr where
  | valueError
  | zeroDivisionError
  | nameError
  | otherError
deriving DecidableEq

/-- An observation matrix: a list of feature rows (each a list of
rationals).  `len(X)` in the source is `X.length`, the number of rows. -/
abbrev Mat := List (List ℚ)

/-- Opaque handle to a fitted `GaussianHMM` object. -/
abbrev HModel := ℕ

/-- The arguments of one `GaussianHMM(...).fit(...)` call: the
constructor parameters that the source actually varies
(`n_components`, `n_iter`, `random_state`) and the data passed to
`fit` (`X`, and `lengths` when supplied). -/
structure FitCall where
  nComponents : ℕ
  nIter : ℕ
  randomState : Option ℕ
  X : Mat
  lengths : Option (List ℕ)
deriving DecidableEq

/-- One call made to the external trainer. -/
inductive Call where
  | fit (fc : FitCall)
  | score (m : HModel) (X : Mat) (lengths : Option (List ℕ))
deriving DecidableEq

/-- The external trainer and numeric environment: the outcome of every
fit, the `n_features` attribute of a fitted model, the outcome of every
`model.score(...)` call, and `np.log` on natural arguments. -/
structure Oracle where
  fit : FitCall → Except PyErr HModel
  nFeatures : HModel → ℕ
  score : HModel → Mat → Option (List ℕ) → Except PyErr ℚ
  nplog : ℕ → ℚ

/-- The computation monad: state-passing over the list of trainer calls
made so far, with Python exceptions as `Except` errors.  The trace
survives a raised exception (Python does not roll back side effects). -/
def TraceM (α : Type) : Type := List Call → Except PyErr α × List Call

def TraceM.pure (a : α) : TraceM α := fun s => (.ok a, s)

def TraceM.bind (x : TraceM α) (f : α → TraceM β) : TraceM β := fun s =>
  match x s with
  | (.ok a, s') => f a s'
  | (.error e, s') => (.error e, s')

instance : Monad TraceM where
  pure := TraceM.pure
  bind := TraceM.bind

/-- Raise a Python exception. -/
def TraceM.throw (e : PyErr) : TraceM α := fun s => (.error e, s)

/-- `try: body except E: handler` — errors satisfying `catches` run the
handler (from the state at the point of the raise), others propagate. -/
def tryExcept (body : TraceM α) (catches : PyErr → Bool) (handler : TraceM α) :
    TraceM α := fun s =>
  match body s with
  | (.ok a, s') => (.ok a, s')
  | (.error e, s') => if catches e then handler s' else (.error e, s')

/-- Record a `fit` call and return its oracle-determined outcome. -/
def doFit (o : Oracle) (fc : FitCall) : TraceM HModel := fun s =>
  (o.fit fc, s ++ [.fit fc])

/-- Record a `score` call and return its oracle-determined outcome. -/
def doScore (o : Oracle) (m : HModel) (X : Mat) (lengths : Option (List ℕ)) :
    TraceM ℚ := fun s =>
  (o.score m X lengths, s ++ [.score m X lengths])

/-- Sequential `for` loop accumulating a value. -/
def foldM (f : β → α → TraceM β) : List α → β → TraceM β
  | [], b => TraceM.pure b
  | a :: l, b => TraceM.bind (f b a) (fun b' => foldM f l b')

/-- A Python float as the source uses them: a finite rational, or one of
the sentinels `float('inf')` / `float('-inf')`. -/
inductive PFloat where
  | ninf
  | fin (q : ℚ)
  | inf
deriving DecidableEq, BEq

/-- The `<` comparison on `PFloat`. -/
def PFloat.ltb : PFloat → PFloat → Bool
  | .ninf, .ninf => false
  | .ninf, _ => true
  | .fin _, .ninf => false
  | .fin a, .fin b => decide (a < b)
  | .fin _, .inf => true
  | .inf, _ => false

/-- The state of one `ModelSelector` instance after `__init__`:
`all_word_sequences`, `all_word_Xlengths` (both insertion-ordered
dictionaries, embedded as association lists), `this_word` and the
configuration fields. -/
structure SelCtx where
  words : List (String × List Mat)
  hwords : List (String × (Mat × List ℕ))
  thisWord : String
  nConstant : ℕ
  minN : ℕ
  maxN : ℕ
  randomState : ℕ
  verbose : Bool
deriving DecidableEq

/-- `self.sequences = all_word_sequences[this_word]`. -/
def SelCtx.sequences (c : SelCtx) : List Mat :=
  (c.words.lookup c.thisWord).getD []

/-- `self.X, self.lengths = all_word_Xlengths[this_word]` — the matrix. -/
def SelCtx.X (c : SelCtx) : Mat :=
  ((c.hwords.lookup c.thisWord).getD ([], [])).1

/-- `self.X, self.lengths = all_word_Xlengths[this_word]` — the lengths. -/
def SelCtx.lengths (c : SelCtx) : List ℕ :=
  ((c.hwords.lookup c.thisWord).getD ([], [])).2

/-- The context invariants of the specification: the label's own
sequence data is non-empty and the candidate range is non-empty. -/
def SelCtx.validInvariants (c : SelCtx) : Prop :=
  c.sequences ≠ [] ∧ c.X ≠ [] ∧ c.minN < c.maxN

instance (c : SelCtx) : Decidable c.validInvariants := by
  unfold SelCtx.validInvariants; infer_instance

/-- `range(self.min_n_components, self.max_n_components)`. -/
def candidates (c : SelCtx) : List ℕ := List.range' c.minN (c.maxN - c.minN)

/-- The fit call of `base_model`:
`GaussianHMM(n_components=num_states, covariance_type="diag",
n_iter=1000, random_state=self.random_state, verbose=False)
.fit(self.X, self.lengths)`. -/
def baseModelCall (c : SelCtx) (numStates : ℕ) : FitCall :=
  { nComponents := numStates, nIter := 1000,
    randomState := some c.randomState, X := c.X, lengths := some c.lengths }

/-- The value `base_model(numStates)` returns, as determined by the
oracle: the fitted model on success, `None` on any exception. -/
def refitResult (o : Oracle) (c : SelCtx) (numStates : ℕ) : Option HModel :=
  match o.fit (baseModelCall c numStates) with
  | .ok m => some m
  | .error _ => none

/-- `ModelSelector.base_model`: the fit is wrapped in a bare
`try/except` that absorbs every exception and returns `None`. -/
def baseModel (o : Oracle) (c : SelCtx) (numStates : ℕ) :
    TraceM (Option HModel) :=
  tryExcept
    (do
      let m ← doFit o (baseModelCall c numStates)
      pure (some m))
    (fun _ => true)
    (pure none)

/-- `SelectorConstant.select`: one `base_model` call at `n_constant`. -/
def constantSelect (o : Oracle) (c : SelCtx) : TraceM (Option HModel) :=
  baseModel o c c.nConstant

/-- The fit call of a sweep iteration:
`GaussianHMM(n_components=i, n_iter=500)` fitted on the given data —
`random_state` is not passed, so it is `None` (the library default). -/
def sweepFitCall (i : ℕ) (X : Mat) (lengths : Option (List ℕ)) : FitCall :=
  { nComponents := i, nIter := 500, randomState := none,
    X := X, lengths := lengths }

/-- The update `if score < best_score: best_score, best_num_components
= score, i` of the BIC sweep. -/
def bicUpdate (best : PFloat × ℕ) (score : ℚ) (i : ℕ) : PFloat × ℕ :=
  if PFloat.ltb (.fin score) best.1 then (.fin score, i) else best

/-- The update `if score > best_score or best_score == 0:
best_score, best_num_components = score, i` shared by the DIC and CV
sweeps. -/
def sweepUpdate (best : PFloat × ℕ) (score : ℚ) (i : ℕ) : PFloat × ℕ :=
  if PFloat.ltb best.1 (.fin score) ∨ best.1 = .fin 0 then
    (.fin score, i)
  else best

/-- The `try:` block of `SelectorBIC.select`'s candidate loop (lines
84–92): fit on `self.X` (no lengths), compute
`p = i**2 + 2*model.n_features*i - 1` and
`score = -2*model.score(self.X) + p*np.log(len(self.X))`, keep the
minimum. -/
def bicTry (o : Oracle) (c : SelCtx) (best : PFloat × ℕ) (i : ℕ) :
    TraceM (PFloat × ℕ) := do
  let m ← doFit o (sweepFitCall i c.X none)
  let p : ℤ := (i : ℤ) ^ 2 + 2 * (o.nFeatures m : ℤ) * (i : ℤ) - 1
  let q ← doScore o m c.X none
  let score : ℚ := -2 * q + (p : ℚ) * o.nplog c.X.length
  pure (bicUpdate best score i)

/-- One iteration of `SelectorBIC.select`'s candidate loop (lines
83–94): the `try:` block with `except ValueError: pass`. -/
def bicBody (o : Oracle) (c : SelCtx) (best : PFloat × ℕ) (i : ℕ) :
    TraceM (PFloat × ℕ) :=
  tryExcept (bicTry o c best i) (· == .valueError) (pure best)

/-- The candidate loop of `SelectorBIC.select`, returning
`best_num_components` (initial best score `float('inf')`, initial
`best_num_components = 0`). -/
def bicSweep (o : Oracle) (c : SelCtx) : TraceM ℕ := do
  let r ← foldM (bicBody o c) (candidates c) (PFloat.inf, 0)
  pure r.2

/-- `SelectorBIC.select`: the sweep followed by
`return self.base_model(best_num_components)`. -/
def bicSelect (o : Oracle) (c : SelCtx) : TraceM (Option HModel) := do
  let n ← bicSweep o c
  baseModel o c n

/-- The inner loop of `SelectorDIC.select` (lines 122–126):
`for word in self.hwords: if not word == self.this_word:
X, lengths = self.hwords[word]; antiLogL += model.score(X, lengths);
word_count += 1`.  The accumulator carries `antiLogL`, `word_count`,
and the current binding of the loop-local `X` (`none` while unbound). -/
def dicInner (o : Oracle) (c : SelCtx) (m : HModel) :
    List (String × (Mat × List ℕ)) → ℚ × ℕ × Option Mat →
    TraceM (ℚ × ℕ × Option Mat)
  | [], acc => TraceM.pure acc
  | p :: l, acc =>
    if p.1 = c.thisWord then dicInner o c m l acc
    else
      TraceM.bind (doScore o m p.2.1 (some p.2.2)) (fun sc =>
        dicInner o c m l (acc.1 + sc, acc.2.1 + 1, some p.2.1))

/-- One iteration of `SelectorDIC.select`'s candidate loop (lines
113–133): fit on `self.X, self.lengths`, accumulate the other words'
scores, then `score = model.score(X) - antiLogL / word_count` where `X`
is whatever the inner loop last bound it to — the last *other* word's
matrix; if no other word exists, `X` is unbound and `model.score(X)`
raises `NameError`.  `except ValueError: pass`. -/
def dicTry (o : Oracle) (c : SelCtx) (best : PFloat × ℕ) (i : ℕ) :
    TraceM (PFloat × ℕ) := do
  let m ← doFit o (sweepFitCall i c.X (some c.lengths))
  let r ← dicInner o c m c.hwords (0, 0, none)
  match r.2.2 with
  | none => TraceM.throw .nameError
  | some lastX => do
    let selfS ← doScore o m lastX none
    let score : ℚ := selfS - r.1 / (r.2.1 : ℚ)
    pure (sweepUpdate best score i)

/-- One iteration of `SelectorDIC.select`'s candidate loop: the `try:`
block `dicTry` with `except ValueError: pass`. -/
def dicBody (o : Oracle) (c : SelCtx) (best : PFloat × ℕ) (i : ℕ) :
    TraceM (PFloat × ℕ) :=
  tryExcept (dicTry o c best i) (· == .valueError) (pure best)

/-- The candidate loop of `SelectorDIC.select`, returning
`best_num_components` (initial best score `float('-inf')`). -/
def dicSweep (o : Oracle) (c : SelCtx) : TraceM ℕ := do
  let r ← foldM (dicBody o c) (candidates c) (PFloat.ninf, 0)
  pure r.2

/-- `SelectorDIC.select`. -/
def dicSelect (o : Oracle) (c : SelCtx) : TraceM (Option HModel) := do
  let n ← dicSweep o c
  baseModel o c n

/-- Numpy fancy indexing `X[indices]`: the rows of `X` at the given
positions. -/
def selectRows (X : Mat) (idx : List ℕ) : Mat :=
  idx.filterMap (fun j => X[j]?)

/-- Modelled from the spec: the external `FoldSplitter` capability
(`sklearn.model_selection.KFold(n_splits=k)` is outside this
repository).  Given `n` samples it produces `k`
(train-indices, test-indices) groups: the test groups are consecutive
index blocks whose sizes differ by at most one (the first `n % k`
blocks get the extra element), and each train group is the complement
of its test group. -/
def kfoldSplit (n k : ℕ) : List (List ℕ × List ℕ) :=
  (List.range k).map (fun f =>
    let start := f * (n / k) + min f (n % k)
    let size := n / k + if f < n % k then 1 else 0
    ((List.range n).filter (fun j => decide (j < start) || decide (start + size ≤ j)),
     List.range' start size))

/-- One fold iteration of `SelectorCV.select` (lines 152–160):
`X_train, X_test = self.X[train_index], self.X[test_index]`, then in a
`try`: fit `GaussianHMM(n_components=i, n_iter=500)` on `X_train` (no
lengths), append `model.score(X_test)` to the score list;
`except ValueError: pass`. -/
def cvTry (o : Oracle) (c : SelCtx) (i : ℕ) (sc : List ℚ)
    (ti : List ℕ × List ℕ) : TraceM (List ℚ) := do
  let m ← doFit o (sweepFitCall i (selectRows c.X ti.1) none)
  let q ← doScore o m (selectRows c.X ti.2) none
  pure (sc ++ [q])

/-- One fold iteration of `SelectorCV.select`: the `try:` block `cvTry`
with `except ValueError: pass`. -/
def cvFold (o : Oracle) (c : SelCtx) (i : ℕ) (sc : List ℚ)
    (ti : List ℕ × List ℕ) : TraceM (List ℚ) :=
  tryExcept (cvTry o c i sc ti) (· == .valueError) (pure sc)

/-- One iteration of `SelectorCV.select`'s candidate loop (lines
150–167): `KFold(n_splits=4)` over the *rows* of `self.X`, the fold
loop, then `avg_score = sum(score)/len(score)` with
`except ZeroDivisionError: avg_score = 0`, and the shared
`score > best_score or best_score == 0` update. -/
def cvBody (o : Oracle) (c : SelCtx) (best : PFloat × ℕ) (i : ℕ) :
    TraceM (PFloat × ℕ) := do
  let scores ← foldM (cvFold o c i) (kfoldSplit c.X.length 4) []
  let avg ← tryExcept
    (if scores.length = 0 then TraceM.throw .zeroDivisionError
     else pure (scores.sum / (scores.length : ℚ)))
    (· == .zeroDivisionError)
    (pure 0)
  pure (sweepUpdate best avg i)

/-- The candidate loop of `SelectorCV.select`, returning
`best_num_components` (initial best score the integer `0`). -/
def cvSweep (o : Oracle) (c : SelCtx) : TraceM ℕ := do
  let r ← foldM (cvBody o c) (candidates c) (PFloat.fin 0, 0)
  pure r.2

/-- `SelectorCV.select`. -/
def cvSelect (o : Oracle) (c : SelCtx) : TraceM (Option HModel) := do
  let n ← cvSweep o c
  baseModel o c n

/-- The other-word entries of `hwords`, in dictionary order. -/
def otherPairs (c : SelCtx) : List (String × (Mat × List ℕ)) :=
  c.hwords.filter (fun p => p.1 ≠ c.thisWord)

/-- The matrix the DIC inner loop leaves bound to `X`: the last other
word's matrix, when an other word exists. -/
def lastOtherX (c : SelCtx) : Option Mat :=
  ((otherPairs c).getLast?).map (fun p => p.2.1)

/-- The sum of the other words' scores under model `m` (each scored
with its lengths), reading failed scores as `0`; used only to state
results about runs in which every such score succeeds. -/
def othersSum (o : Oracle) (m : HModel) (c : SelCtx) : ℚ :=
  ((otherPairs c).map (fun p =>
    match o.score m p.2.1 (some p.2.2) with
    | .ok q => q
    | .error _ => 0)).sum

/-- The other-word entries of an arbitrary dictionary slice (the
generalisation of `otherPairs` used in loop inductions). -/
def innerOthers (c : SelCtx) (l : List (String × (Mat × List ℕ))) :
    List (String × (Mat × List ℕ)) :=
  l.filter (fun p => p.1 ≠ c.thisWord)

/-- Sum of scores over a dictionary slice, failures read as `0`. -/
def innerSum (o : Oracle) (m : HModel)
    (l : List (String × (Mat × List ℕ))) : ℚ :=
  (l.map (fun p =>
    match o.score m p.2.1 (some p.2.2) with
    | .ok q => q
    | .error _ => 0)).sum

/-- The binding the DIC inner loop leaves in `X` after traversing a
slice, given the binding `d` it had before. -/
def lastBind (l : List (String × (Mat × List ℕ))) (d : Option Mat) :
    Option Mat :=
  match l.getLast? with
  | some p => some p.2.1
  | none => d

/-- What the specification claims the DIC candidate computation to be:
identical to `dicBody` except that the self-fit term is the model's
score on this label's own `X`/`lengths`.  Written from the spec's
words, to be compared with `dicBody`, which is written from the code. -/
def dicBodyClaimed (o : Oracle) (c : SelCtx) (best : PFloat × ℕ) (i : ℕ) :
    TraceM (PFloat × ℕ) :=
  tryExcept
    (do
      let m ← doFit o (sweepFitCall i c.X (some c.lengths))
      let r ← dicInner o c m c.hwords (0, 0, none)
      let selfS ← doScore o m c.X (some c.lengths)
      let score : ℚ := selfS - r.1 / (r.2.1 : ℚ)
      pure (sweepUpdate best score i))
    (· == .valueError)
    (pure best)

/-- The DIC sweep as the specification describes it (self-fit term on
the label's own data); compared against `dicSweep`. -/
def dicSweepClaimed (o : Oracle) (c : SelCtx) : TraceM ℕ := do
  let r ← foldM (dicBodyClaimed o c) (candidates c) (PFloat.ninf, 0)
  pure r.2

/-- Concatenate the sequence samples at the given indices into the
(flattened matrix, per-sample lengths) representation the trainer
consumes. -/
def combineSeqs (seqs : List Mat) (idx : List ℕ) : Mat × List ℕ :=
  let samples := idx.filterMap (fun j => seqs[j]?)
  (samples.flatten, samples.map List.length)

/-- What the specification claims a CV fold iteration to be: fold
boundaries over the label's *sequence samples*, fitting on the training
samples' concatenation and scoring on the held-out samples'
concatenation.  Written from the spec's words, to be compared with
`cvFold`, which is written from the code. -/
def cvFoldSpec (o : Oracle) (c : SelCtx) (i : ℕ) (sc : List ℚ)
    (ti : List ℕ × List ℕ) : TraceM (List ℚ) :=
  let tr := combineSeqs c.sequences ti.1
  let te := combineSeqs c.sequences ti.2
  tryExcept
    (do
      let m ← doFit o (sweepFitCall i tr.1 (some tr.2))
      let q ← doScore o m te.1 (some te.2)
      pure (sc ++ [q]))
    (· == .valueError)
    (pure sc)

/-- The CV candidate iteration as the specification describes it
(folds over samples); compared against `cvBody`. -/
def cvBodySpec (o : Oracle) (c : SelCtx) (best : PFloat × ℕ) (i : ℕ) :
    TraceM (PFloat × ℕ) := do
  let scores ← foldM (cvFoldSpec o c i) (kfoldSplit c.sequences.length 4) []
  let avg ← tryExcept
    (if scores.length = 0 then TraceM.throw .zeroDivisionError
     else pure (scores.sum / (scores.length : ℚ)))
    (· == .zeroDivisionError)
    (pure 0)
  pure (sweepUpdate best avg i)

/-- The CV sweep as the specification describes it; compared against
`cvSweep`. -/
def cvSweepSpec (o : Oracle) (c : SelCtx) : TraceM ℕ := do
  let r ← foldM (cvBodySpec o c) (candidates c) (PFloat.fin 0, 0)
  pure r.2

/-- The BIC score of candidate `i` as a pure value: `none` when the fit
or the score call fails, otherwise
`-2*logL + (i^2 + 2*f*i - 1) * log(N)` with `f = model.n_features` and
`N = len(self.X)` the number of feature rows. -/
def bicScoreOf (o : Oracle) (c : SelCtx) (i : ℕ) : Option ℚ :=
  match o.fit (sweepFitCall i c.X none) with
  | .error _ => none
  | .ok m =>
    match o.score m c.X none with
    | .error _ => none
    | .ok q =>
      some (-2 * q +
        (((i : ℤ) ^ 2 + 2 * (o.nFeatures m : ℤ) * (i : ℤ) - 1 : ℤ) : ℚ) *
          o.nplog c.X.length)

/-- One pure step of the BIC sweep: skip an invalid candidate, apply
`bicUpdate` to a valid one. -/
def bicStep (b : PFloat × ℕ) (p : ℕ × Option ℚ) : PFloat × ℕ :=
  match p.2 with
  | none => b
  | some q => bicUpdate b q p.1

/-- The pure BIC sweep over an annotated candidate list. -/
def bicPure (l : List (ℕ × Option ℚ)) (best : PFloat × ℕ) : PFloat × ℕ :=
  l.foldl bicStep best

/-- The candidate range annotated with each candidate's BIC score. -/
def bicTable (o : Oracle) (c : SelCtx) : List (ℕ × Option ℚ) :=
  (candidates c).map (fun i => (i, bicScoreOf o c i))

/-- An oracle is *tame* when every fit or score failure is a
`ValueError` — the "expected numerical failures" of the spec. -/
def Oracle.tame (o : Oracle) : Prop :=
  (∀ fc e, o.fit fc = .error e → e = .valueError) ∧
  (∀ m X l e, o.score m X l = .error e → e = .valueError)

/-- Every call that `x` adds to the trace satisfies `P`. -/
def GoodTrace (P : Call → Prop) (x : TraceM α) : Prop :=
  ∀ s call, call ∈ (x s).2 → call ∈ s ∨ P call

/- Concrete fixtures:  small contexts and oracles used by the
counterexamples and witnesses below. -/

/-- A context holding a single word "A" with one two-frame sample. -/
def ctx1 : SelCtx :=
  { words := [("A", [[[1], [2]]])],
    hwords := [("A", ([[1], [2]], [2]))],
    thisWord := "A", nConstant := 3, minN := 2, maxN := 3,
    randomState := 14, verbose := false }

/-- `ctx1` with candidate range `[2, 4)`. -/
def ctx7 : SelCtx :=
  { ctx1 with maxN := 4 }

/-- A context holding this word "A" and one other word "B". -/
def ctxAB : SelCtx :=
  { words := [("A", [[[1], [2]]]), ("B", [[[3]]])],
    hwords := [("A", ([[1], [2]], [2])), ("B", ([[3]], [1]))],
    thisWord := "A", nConstant := 3, minN := 2, maxN := 4,
    randomState := 14, verbose := false }

/-- A context whose word "A" has two samples (lengths 2 and 1), so the
row count (3) differs from the sample count (2). -/
def ctx3 : SelCtx :=
  { words := [("A", [[[1], [2]], [[3]]])],
    hwords := [("A", ([[1], [2], [3]], [2, 1]))],
    thisWord := "A", nConstant := 3, minN := 2, maxN := 3,
    randomState := 14, verbose := false }

/-- A trainer whose every fit fails with an exception that is *not* a
`ValueError`. -/
def oBad : Oracle :=
  { fit := fun _ => .error .otherError,
    nFeatures := fun _ => 1,
    score := fun _ _ _ => .ok 0,
    nplog := fun _ => 1 }

/-- A trainer whose every fit fails with a `ValueError`. -/
def oFailAll : Oracle :=
  { fit := fun _ => .error .valueError,
    nFeatures := fun _ => 1,
    score := fun _ _ _ => .ok 0,
    nplog := fun _ => 1 }

/-- A trainer that always succeeds: the returned model handle is the
requested component count, every score is `5`. -/
def oGood : Oracle :=
  { fit := fun fc => .ok fc.nComponents,
    nFeatures := fun _ => 1,
    score := fun _ _ _ => .ok 5,
    nplog := fun _ => 1 }

/-- A trainer distinguishing the data being scored, arranged so that
the DIC code and the DIC specification formula pick different
candidates on `ctxAB`: model `2` scores `7` on B's matrix without
lengths, `-10` on it with lengths, and `50` on anything else; model `3`
scores `-20` on B's matrix and `100` on anything else. -/
def o2 : Oracle :=
  { fit := fun fc => .ok fc.nComponents,
    nFeatures := fun _ => 1,
    score := fun m X l =>
      if X = [[3]] then
        if l = none then (if m = 2 then .ok 7 else .ok (-20))
        else (if m = 2 then .ok (-10) else .ok (-20))
      else (if m = 2 then .ok 50 else .ok 100),
    nplog := fun _ => 1 }

/-- A trainer making both DIC candidates on `ctxAB` score exactly `17`
(a nonzero tie). -/
def o6 : Oracle :=
  { fit := fun fc => .ok fc.nComponents,
    nFeatures := fun _ => 1,
    score := fun _ _ l => if l = none then .ok 7 else .ok (-10),
    nplog := fun _ => 1 }

/-- A trainer making both DIC candidates on `ctxAB` score exactly `0`
(a tie at score zero). -/
def o6b : Oracle :=
  { fit := fun fc => .ok fc.nComponents,
    nFeatures := fun _ => 1,
    score := fun _ _ _ => .ok 5,
    nplog := fun _ => 1 }

/-- A trainer whose fits succeed but whose every score carrying
`lengths` (as the DIC cross-label scores do) raises `ValueError`. -/
def oScoreFail : Oracle :=
  { fit := fun fc => .ok fc.nComponents,
    nFeatures := fun _ => 1,
    score := fun _ _ l => if l = none then .ok 5 else .error .valueError,
    nplog := fun _ => 1 }

/-- A trainer reproducing the spec's BIC end-to-end scenario shape:
log-likelihood `-100` at `n = 2` and `-90` at `n = 3`, five features. -/
def o4 : Oracle :=
  { fit := fun fc => .ok fc.nComponents,
    nFeatures := fun _ => 5,
    score := fun m _ _ => if m = 2 then .ok (-100) else .ok (-90),
    nplog := fun _ => 4 }

/- Infrastructure lemmas about the monad, loops and traces. -/

theorem run_bind (x : TraceM α) (f : α → TraceM β) (s : List Call) :
    (x >>= f) s =
      match x s with
      | (.ok a, s') => f a s'
      | (.error e, s') => (.error e, s') := rfl

theorem run_pure (a : α) (s : List Call) :
    (pure a : TraceM α) s = (.ok a, s) := rfl

theorem run_doFit (o : Oracle) (fc : FitCall) (s : List Call) :
    doFit o fc s = (o.fit fc, s ++ [.fit fc]) := rfl

theorem run_doScore (o : Oracle) (m : HModel) (X : Mat)
    (l : Option (List ℕ)) (s : List Call) :
    doScore o m X l s = (o.score m X l, s ++ [.score m X l]) := rfl

theorem bind_ok {x : TraceM α} {s s' : List Call} {a : α}
    (h : x s = (.ok a, s')) (f : α → TraceM β) : (x >>= f) s = f a s' := by
  rw [run_bind, h]

theorem bind_error {x : TraceM α} {s s' : List Call} {e : PyErr}
    (h : x s = (.error e, s')) (f : α → TraceM β) :
    (x >>= f) s = (.error e, s') := by
  rw [run_bind, h]

theorem tryExcept_run_ok {body : TraceM α} {s s' : List Call} {a : α}
    (h : body s = (.ok a, s')) (catches : PyErr → Bool) (handler : TraceM α) :
    tryExcept body catches handler s = (.ok a, s') := by
  unfold tryExcept; rw [h]

theorem tryExcept_run_error {body : TraceM α} {s s' : List Call} {e : PyErr}
    (h : body s = (.error e, s')) (catches : PyErr → Bool) (handler : TraceM α) :
    tryExcept body catches handler s =
      if catches e then handler s' else (.error e, s') := by
  unfold tryExcept; rw [h]

theorem tbind_ok {x : TraceM α} {s s' : List Call} {a : α}
    (h : x s = (.ok a, s')) (f : α → TraceM β) :
    TraceM.bind x f s = f a s' := by
  unfold TraceM.bind; rw [h]

theorem tbind_error {x : TraceM α} {s s' : List Call} {e : PyErr}
    (h : x s = (.error e, s')) (f : α → TraceM β) :
    TraceM.bind x f s = (.error e, s') := by
  unfold TraceM.bind; rw [h]

theorem foldM_fst_mem {f : β → α → TraceM β} {g : β → α → β} :
    ∀ {l : List α}, (∀ b a, a ∈ l → ∀ s, (f b a s).1 = .ok (g b a)) →
      ∀ (b : β) (s : List Call), ((foldM f l b) s).1 = .ok (l.foldl g b)
  | [], _, b, s => rfl
  | a :: l, h, b, s => by
    unfold foldM
    rcases hfa : f b a s with ⟨r, s'⟩
    have h1 := h b a (List.mem_cons_self a l) s
    rw [hfa] at h1
    simp only at h1
    subst h1
    rw [show (TraceM.bind (f b a) (fun b' => foldM f l b')) s =
        (foldM f l (g b a)) s' from by
      unfold TraceM.bind; rw [hfa]]
    have := foldM_fst_mem (l := l)
      (fun b' a' ha' => h b' a' (List.mem_cons_of_mem a ha')) (g b a) s'
    rw [this, List.foldl_cons]

theorem foldM_fst {f : β → α → TraceM β} {g : β → α → β}
    (h : ∀ b a s, (f b a s).1 = .ok (g b a)) (l : List α) (b : β)
    (s : List Call) : ((foldM f l b) s).1 = .ok (l.foldl g b) :=
  foldM_fst_mem (fun b a _ s => h b a s) b s

theorem foldM_isOk {f : β → α → TraceM β} :
    ∀ {l : List α}, (∀ b a, a ∈ l → ∀ s, ∃ r, (f b a s).1 = .ok r) →
      ∀ (b : β) (s : List Call), ∃ r, ((foldM f l b) s).1 = .ok r
  | [], _, b, s => ⟨b, rfl⟩
  | a :: l, h, b, s => by
    unfold foldM
    rcases hfa : f b a s with ⟨r, s'⟩
    obtain ⟨r', h1⟩ := h b a (List.mem_cons_self a l) s
    rw [hfa] at h1
    simp only at h1
    subst h1
    rw [show (TraceM.bind (f b a) (fun b' => foldM f l b')) s =
        (foldM f l r') s' from by
      unfold TraceM.bind; rw [hfa]]
    exact foldM_isOk (l := l)
      (fun b' a' ha' => h b' a' (List.mem_cons_of_mem a ha')) r' s'

theorem goodTrace_pure (P : Call → Prop) (a : α) :
    GoodTrace P (pure a : TraceM α) := fun _ _ h => .inl h

theorem goodTrace_throw (P : Call → Prop) (e : PyErr) :
    GoodTrace P (TraceM.throw e : TraceM α) := fun _ _ h => .inl h

theorem goodTrace_bind {P : Call → Prop} {x : TraceM α} {f : α → TraceM β}
    (hx : GoodTrace P x) (hf : ∀ a, GoodTrace P (f a)) :
    GoodTrace P (x >>= f) := by
  intro s call h
  rw [run_bind] at h
  rcases hxs : x s with ⟨r, s'⟩
  rw [hxs] at h
  have hs' : ∀ c, c ∈ s' → c ∈ s ∨ P c := by
    intro c hc
    exact hx s c (by rw [hxs]; exact hc)
  cases r with
  | ok a =>
    rcases hf a s' call h with h' | h'
    · exact hs' call h'
    · exact .inr h'
  | error e => exact hs' call h

theorem goodTrace_tryExcept {P : Call → Prop} {body handler : TraceM α}
    {catches : PyErr → Bool} (hb : GoodTrace P body)
    (hh : GoodTrace P handler) : GoodTrace P (tryExcept body catches handler) := by
  intro s call h
  unfold tryExcept at h
  rcases hbs : body s with ⟨r, s'⟩
  rw [hbs] at h
  have hs' : ∀ c, c ∈ s' → c ∈ s ∨ P c := by
    intro c hc
    exact hb s c (by rw [hbs]; exact hc)
  cases r with
  | ok a => exact hs' call h
  | error e =>
    simp only at h
    by_cases hc : catches e
    · rw [if_pos hc] at h
      rcases hh s' call h with h' | h'
      · exact hs' call h'
      · exact .inr h'
    · rw [if_neg hc] at h
      exact hs' call h

theorem goodTrace_doFit {P : Call → Prop} {o : Oracle} {fc : FitCall}
    (hP : P (.fit fc)) : GoodTrace P (doFit o fc) := by
  intro s call h
  rw [run_doFit] at h
  simp only [List.mem_append, List.mem_singleton] at h
  rcases h with h | h
  · exact .inl h
  · exact .inr (h ▸ hP)

theorem goodTrace_doScore {P : Call → Prop} {o : Oracle} {m : HModel}
    {X : Mat} {l : Option (List ℕ)} (hP : P (.score m X l)) :
    GoodTrace P (doScore o m X l) := by
  intro s call h
  rw [run_doScore] at h
  simp only [List.mem_append, List.mem_singleton] at h
  rcases h with h | h
  · exact .inl h
  · exact .inr (h ▸ hP)

theorem goodTrace_foldM {P : Call → Prop} {f : β → α → TraceM β} :
    ∀ {l : List α}, (∀ b a, a ∈ l → GoodTrace P (f b a)) →
      ∀ b : β, GoodTrace P (foldM f l b)
  | [], _, b => goodTrace_pure P b
  | a :: l, h, b =>
    goodTrace_bind (h b a (List.mem_cons_self a l))
      (fun b' => goodTrace_foldM (l := l)
        (fun b'' a' ha' => h b'' a' (List.mem_cons_of_mem a ha')) b')

/-- `base_model` runs without raising for every oracle behaviour: it
makes exactly the one refit call and returns `refitResult`. -/
theorem baseModel_run (o : Oracle) (c : SelCtx) (n : ℕ) (s : List Call) :
    (baseModel o c n) s =
      (.ok (refitResult o c n), s ++ [.fit (baseModelCall c n)]) := by
  cases hf : o.fit (baseModelCall c n) with
  | ok m =>
    simp [baseModel, tryExcept, run_bind, run_doFit, run_pure, refitResult, hf]
  | error e =>
    simp [baseModel, tryExcept, run_bind, run_doFit, run_pure, refitResult, hf]

/-- Claim C10: `ModelSelector.base_model(num_states)` is total over
every `num_states` and every trainer behaviour — any exception raised
while fitting (of any kind, not only `ValueError`) is absorbed by the
bare `except:` and `base_model` returns `None` (`refitResult` is `none`
exactly on a failed fit); consequently `SelectorConstant.select` never
raises and returns the fitted model or `None`. -/
theorem C10_base_model_total (o : Oracle) (c : SelCtx) (n : ℕ) (s : List Call) :
    ((baseModel o c n) s).1 = .ok (refitResult o c n) ∧
    ((constantSelect o c) s).1 = .ok (refitResult o c c.nConstant) := by
  constructor
  · rw [baseModel_run]
  · unfold constantSelect
    rw [baseModel_run]

/-- Claim C8: for every strategy, the model `select()` returns is
produced by the one shared final-refit step `base_model`, which fits
the label's full concatenated data with its per-sample lengths
(`baseModelCall`: `self.X`, `self.lengths`) at the chosen
`best_num_components`; the result (`refitResult`) depends only on the
oracle, the context and that count — never on any model object fitted
during the sweep. -/
theorem C8_final_refit (o : Oracle) (c : SelCtx) :
    (∀ s, (constantSelect o c) s =
      (.ok (refitResult o c c.nConstant),
        s ++ [.fit (baseModelCall c c.nConstant)])) ∧
    (∀ n t s, (bicSweep o c) s = (.ok n, t) →
      (bicSelect o c) s =
        (.ok (refitResult o c n), t ++ [.fit (baseModelCall c n)])) ∧
    (∀ n t s, (dicSweep o c) s = (.ok n, t) →
      (dicSelect o c) s =
        (.ok (refitResult o c n), t ++ [.fit (baseModelCall c n)])) ∧
    (∀ n t s, (cvSweep o c) s = (.ok n, t) →
      (cvSelect o c) s =
        (.ok (refitResult o c n), t ++ [.fit (baseModelCall c n)])) := by
  refine ⟨fun s => ?_, fun n t s h => ?_, fun n t s h => ?_, fun n t s h => ?_⟩
  · unfold constantSelect
    exact baseModel_run o c _ s
  · unfold bicSelect
    rw [bind_ok h]
    exact baseModel_run o c n t
  · unfold dicSelect
    rw [bind_ok h]
    exact baseModel_run o c n t
  · unfold cvSelect
    rw [bind_ok h]
    exact baseModel_run o c n t

theorem goodTrace_dicInner {P : Call → Prop} {o : Oracle} {c : SelCtx}
    {m : HModel} (hP : ∀ m' X l', P (.score m' X l')) :
    ∀ (l : List (String × (Mat × List ℕ))) (acc : ℚ × ℕ × Option Mat),
      GoodTrace P (dicInner o c m l acc)
  | [], acc => goodTrace_pure P acc
  | p :: l, acc => by
    unfold dicInner
    by_cases hw : p.1 = c.thisWord
    · rw [if_pos hw]
      exact goodTrace_dicInner hP l acc
    · rw [if_neg hw]
      exact goodTrace_bind (goodTrace_doScore (hP _ _ _))
        (fun sc => goodTrace_dicInner hP l _)

theorem goodTrace_bicBody {P : Call → Prop} {o : Oracle} {c : SelCtx}
    (hfit : ∀ i, P (.fit (sweepFitCall i c.X none)))
    (hsc : ∀ m' X l', P (.score m' X l')) (best : PFloat × ℕ) (i : ℕ) :
    GoodTrace P (bicBody o c best i) := by
  unfold bicBody bicTry
  exact goodTrace_tryExcept
    (goodTrace_bind (goodTrace_doFit (hfit i))
      (fun m => goodTrace_bind (goodTrace_doScore (hsc _ _ _))
        (fun q => goodTrace_pure P _)))
    (goodTrace_pure P _)

theorem goodTrace_dicBody {P : Call → Prop} {o : Oracle} {c : SelCtx}
    (hfit : ∀ i, P (.fit (sweepFitCall i c.X (some c.lengths))))
    (hsc : ∀ m' X l', P (.score m' X l')) (best : PFloat × ℕ) (i : ℕ) :
    GoodTrace P (dicBody o c best i) := by
  unfold dicBody dicTry
  refine goodTrace_tryExcept
    (goodTrace_bind (goodTrace_doFit (hfit i))
      (fun m => goodTrace_bind (goodTrace_dicInner hsc _ _) (fun r => ?_)))
    (goodTrace_pure P _)
  cases r.2.2 with
  | none => exact goodTrace_throw P _
  | some lastX =>
    exact goodTrace_bind (goodTrace_doScore (hsc _ _ _))
      (fun selfS => goodTrace_pure P _)

theorem goodTrace_cvBody {P : Call → Prop} {o : Oracle} {c : SelCtx}
    (hfit : ∀ i X, P (.fit (sweepFitCall i X none)))
    (hsc : ∀ m' X l', P (.score m' X l')) (best : PFloat × ℕ) (i : ℕ) :
    GoodTrace P (cvBody o c best i) := by
  unfold cvBody
  refine goodTrace_bind
    (goodTrace_foldM (fun sc ti _ => ?_) [])
    (fun scores => goodTrace_bind ?_ (fun avg => goodTrace_pure P _))
  · unfold cvFold cvTry
    exact goodTrace_tryExcept
      (goodTrace_bind (goodTrace_doFit (hfit i _))
        (fun m => goodTrace_bind (goodTrace_doScore (hsc _ _ _))
          (fun q => goodTrace_pure P _)))
      (goodTrace_pure P _)
  · refine goodTrace_tryExcept ?_ (goodTrace_pure P _)
    by_cases hz : scores.length = 0
    · rw [if_pos hz]
      exact goodTrace_throw P _
    · rw [if_neg hz]
      exact goodTrace_pure P _

/-- Claim C9 (amended): the selection is a function of the context and
the trainer's responses, but the sweep's fits are *not* governed by the
context's seed — every fit call recorded during the BIC, DIC or CV
sweep carries `random_state = None` (the `GaussianHMM(n_components=i,
n_iter=500)` constructions pass no `random_state`), while only the
final refit's `baseModelCall` carries `random_state = self.random_state`. -/
theorem C9_sweep_unseeded (o : Oracle) (c : SelCtx) :
    (∀ fc, Call.fit fc ∈ ((bicSweep o c) []).2 → fc.randomState = none) ∧
    (∀ fc, Call.fit fc ∈ ((dicSweep o c) []).2 → fc.randomState = none) ∧
    (∀ fc, Call.fit fc ∈ ((cvSweep o c) []).2 → fc.randomState = none) ∧
    (∀ n, (baseModelCall c n).randomState = some c.randomState) := by
  have hP : ∀ (x : TraceM ℕ),
      GoodTrace (fun call => ∀ fc, call = .fit fc → fc.randomState = none) x →
      ∀ fc, Call.fit fc ∈ (x []).2 → fc.randomState = none := by
    intro x hx fc hmem
    rcases hx [] (.fit fc) hmem with h | h
    · cases h
    · exact h fc rfl
  refine ⟨hP _ ?_, hP _ ?_, hP _ ?_, fun n => rfl⟩
  · unfold bicSweep
    exact goodTrace_bind
      (goodTrace_foldM (fun b i _ => goodTrace_bicBody
        (fun i' fc h => by cases h; rfl)
        (fun m' X l' fc h => by cases h) b i) _)
      (fun r => goodTrace_pure _ _)
  · unfold dicSweep
    exact goodTrace_bind
      (goodTrace_foldM (fun b i _ => goodTrace_dicBody
        (fun i' fc h => by cases h; rfl)
        (fun m' X l' fc h => by cases h) b i) _)
      (fun r => goodTrace_pure _ _)
  · unfold cvSweep
    exact goodTrace_bind
      (goodTrace_foldM (fun b i _ => goodTrace_cvBody
        (fun i' X fc h => by cases h; rfl)
        (fun m' X l' fc h => by cases h) b i) _)
      (fun r => goodTrace_pure _ _)

/-- Claim C3 (amended): in `SelectorCV.select` the K folds partition
the *raw concatenated feature rows* of `self.X` (`kf.split(self.X)`),
not the sequence samples: every trainer call of a CV candidate
iteration is either a fit on the training *rows* of one row-fold
(without lengths) or a score on that fold's held-out *rows* (without
lengths). -/
theorem C3_cv_folds_are_row_folds (o : Oracle) (c : SelCtx)
    (best : PFloat × ℕ) (i : ℕ) (s : List Call) (call : Call)
    (hmem : call ∈ ((cvBody o c best i) s).2) :
    call ∈ s ∨
      ∃ ti ∈ kfoldSplit c.X.length 4,
        call = .fit (sweepFitCall i (selectRows c.X ti.1) none) ∨
        ∃ m, call = .score m (selectRows c.X ti.2) none := by
  have hGT : GoodTrace
      (fun call => ∃ ti ∈ kfoldSplit c.X.length 4,
        call = .fit (sweepFitCall i (selectRows c.X ti.1) none) ∨
        ∃ m, call = .score m (selectRows c.X ti.2) none)
      (cvBody o c best i) := ?_
  · exact hGT s call hmem
  unfold cvBody
  refine goodTrace_bind (goodTrace_foldM (fun sc ti hti => ?_) [])
    (fun scores => goodTrace_bind ?_ (fun avg => goodTrace_pure _ _))
  · unfold cvFold cvTry
    refine goodTrace_tryExcept
      (goodTrace_bind (goodTrace_doFit ⟨ti, hti, .inl rfl⟩)
        (fun m => goodTrace_bind (goodTrace_doScore ⟨ti, hti, .inr ⟨m, rfl⟩⟩)
          (fun q => goodTrace_pure _ _)))
      (goodTrace_pure _ _)
  · refine goodTrace_tryExcept ?_ (goodTrace_pure _ _)
    by_cases hz : scores.length = 0
    · rw [if_pos hz]
      exact goodTrace_throw _ _
    · rw [if_neg hz]
      exact goodTrace_pure _ _

theorem foldl_id (l : List α) (b : β) : l.foldl (fun b _ => b) b = b := by
  induction l generalizing b with
  | nil => rfl
  | cons a l ih => rw [List.foldl_cons]; exact ih b

theorem foldl_sweepUpdate_zero :
    ∀ (l : List ℕ) (j : ℕ),
      l.foldl (fun b i => sweepUpdate b 0 i) (.fin 0, j) = (.fin 0, l.getLastD j)
  | [], j => by simp [List.getLastD]
  | i :: l, j => by
    rw [List.foldl_cons]
    have h : sweepUpdate (.fin 0, j) 0 i = (.fin 0, i) := by
      simp [sweepUpdate]
    rw [h, foldl_sweepUpdate_zero l i, List.getLastD_cons]

theorem range'_getLastD :
    ∀ (n a d : ℕ), 0 < n → (List.range' a n).getLastD d = a + n - 1
  | 0, _, _, h => absurd h (lt_irrefl 0)
  | n + 1, a, d, _ => by
    rw [List.range'_succ, List.getLastD_cons]
    cases n with
    | zero => simp [List.range']
    | succ m =>
      rw [range'_getLastD (m + 1) (a + 1) a (Nat.succ_pos m)]
      omega

theorem bicBody_allFail {o : Oracle} {c : SelCtx}
    (hfit : ∀ fc, o.fit fc = .error .valueError) (best : PFloat × ℕ) (i : ℕ)
    (s : List Call) : ((bicBody o c best i) s).1 = .ok best := by
  unfold bicBody bicTry
  rw [tryExcept_run_error (bind_error (by rw [run_doFit, hfit]) _)]
  simp [run_pure]

theorem dicBody_allFail {o : Oracle} {c : SelCtx}
    (hfit : ∀ fc, o.fit fc = .error .valueError) (best : PFloat × ℕ) (i : ℕ)
    (s : List Call) : ((dicBody o c best i) s).1 = .ok best := by
  unfold dicBody dicTry
  rw [tryExcept_run_error (bind_error (by rw [run_doFit, hfit]) _)]
  simp [run_pure]

theorem cvFold_allFail {o : Oracle} {c : SelCtx}
    (hfit : ∀ fc, o.fit fc = .error .valueError) (i : ℕ) (sc : List ℚ)
    (ti : List ℕ × List ℕ) (s : List Call) :
    ((cvFold o c i sc ti) s).1 = .ok sc := by
  unfold cvFold cvTry
  rw [tryExcept_run_error (bind_error (by rw [run_doFit, hfit]) _)]
  simp [run_pure]

theorem cvBody_allFail {o : Oracle} {c : SelCtx}
    (hfit : ∀ fc, o.fit fc = .error .valueError) (best : PFloat × ℕ) (i : ℕ)
    (s : List Call) : ((cvBody o c best i) s).1 = .ok (sweepUpdate best 0 i) := by
  unfold cvBody
  rcases hsc : (foldM (cvFold o c i) (kfoldSplit c.X.length 4) []) s with ⟨r, t⟩
  have h1 := foldM_fst (f := cvFold o c i) (g := fun sc _ => sc)
    (fun sc ti s' => cvFold_allFail hfit i sc ti s')
    (kfoldSplit c.X.length 4) [] s
  rw [hsc, foldl_id] at h1
  simp only at h1
  subst h1
  rw [bind_ok hsc]
  have h2 : (tryExcept
      (if ([] : List ℚ).length = 0 then TraceM.throw .zeroDivisionError
       else pure (([] : List ℚ).sum / (([] : List ℚ).length : ℚ)))
      (· == .zeroDivisionError) (pure 0)) t = (.ok (0 : ℚ), t) := by
    have hb : (if ([] : List ℚ).length = 0 then TraceM.throw .zeroDivisionError
        else pure (([] : List ℚ).sum / (([] : List ℚ).length : ℚ))) t =
        ((.error .zeroDivisionError : Except PyErr ℚ), t) := rfl
    rw [tryExcept_run_error hb]
    simp [run_pure]
  rw [bind_ok h2]
  rfl

theorem bindProj_fst {x : TraceM (PFloat × ℕ)} {v : PFloat × ℕ}
    (h : ∀ s, (x s).1 = .ok v) (s : List Call) :
    ((x >>= fun r => pure r.2) s).1 = .ok v.2 := by
  rcases hx : x s with ⟨r, t⟩
  have h1 := h s
  rw [hx] at h1
  simp only at h1
  subst h1
  rw [bind_ok hx]
  rfl

theorem refitResult_none {o : Oracle} {c : SelCtx} {n : ℕ}
    (hfit : ∀ fc, o.fit fc = .error .valueError) : refitResult o c n = none := by
  unfold refitResult
  rw [hfit]

theorem select_run {sw : TraceM ℕ} {o : Oracle} {c : SelCtx} {n : ℕ}
    (hsw : ∀ s, (sw s).1 = .ok n) (s : List Call) :
    ((sw >>= fun n => baseModel o c n) s).1 = .ok (refitResult o c n) ∧
    ((sw >>= fun n => baseModel o c n) s).2.getLast? =
      some (.fit (baseModelCall c n)) := by
  rcases hx : sw s with ⟨r, t⟩
  have h1 := hsw s
  rw [hx] at h1
  simp only at h1
  subst h1
  rw [bind_ok hx, baseModel_run]
  constructor
  · rfl
  · show (t ++ [Call.fit (baseModelCall c n)]).getLast? = _
    exact List.getLast?_concat t

/-- Claim C7 (amended): when every fit in the sweep fails with a
`ValueError`, BIC and DIC return `best_num_components = 0` but CV
returns `max_n_components - 1` (its zero-initialised best score makes
every candidate overwrite the incumbent); all three then *attempt* the
final refit — `base_model` is called unconditionally, its fit call is
the last trace entry — and since that fit also fails, the returned
model is `None`. -/
theorem C7_all_fail (o : Oracle) (c : SelCtx)
    (hfit : ∀ fc, o.fit fc = .error .valueError) (hrange : c.minN < c.maxN) :
    (∀ s, ((bicSweep o c) s).1 = .ok 0) ∧
    (∀ s, ((dicSweep o c) s).1 = .ok 0) ∧
    (∀ s, ((cvSweep o c) s).1 = .ok (c.maxN - 1)) ∧
    (∀ s, ((bicSelect o c) s).1 = .ok none) ∧
    (∀ s, ((dicSelect o c) s).1 = .ok none) ∧
    (∀ s, ((cvSelect o c) s).1 = .ok none) ∧
    (∀ s, ((bicSelect o c) s).2.getLast? = some (.fit (baseModelCall c 0))) := by
  have hbic : ∀ s, ((bicSweep o c) s).1 = .ok 0 := by
    intro s
    unfold bicSweep
    have h := bindProj_fst (x := foldM (bicBody o c) (candidates c) (.inf, 0))
      (v := (.inf, 0)) (fun s' => by
        rw [foldM_fst (g := fun b _ => b)
          (fun b i s'' => bicBody_allFail hfit b i s'') _ _ s', foldl_id]) s
    exact h
  have hdic : ∀ s, ((dicSweep o c) s).1 = .ok 0 := by
    intro s
    unfold dicSweep
    exact bindProj_fst (x := foldM (dicBody o c) (candidates c) (.ninf, 0))
      (v := (.ninf, 0)) (fun s' => by
        rw [foldM_fst (g := fun b _ => b)
          (fun b i s'' => dicBody_allFail hfit b i s'') _ _ s', foldl_id]) s
  have hcv : ∀ s, ((cvSweep o c) s).1 = .ok (c.maxN - 1) := by
    intro s
    unfold cvSweep
    have hlast : (candidates c).getLastD 0 = c.maxN - 1 := by
      unfold candidates
      rw [range'_getLastD (c.maxN - c.minN) c.minN 0 (by omega)]
      omega
    have h := bindProj_fst (x := foldM (cvBody o c) (candidates c) (.fin 0, 0))
      (v := (.fin 0, (candidates c).getLastD 0)) (fun s' => by
        rw [foldM_fst (g := fun b i => sweepUpdate b 0 i)
          (fun b i s'' => cvBody_allFail hfit b i s'') _ _ s',
          foldl_sweepUpdate_zero]) s
    rw [hlast] at h
    exact h
  refine ⟨hbic, hdic, hcv, fun s => ?_, fun s => ?_, fun s => ?_, fun s => ?_⟩
  · unfold bicSelect
    rw [(select_run hbic s).1, refitResult_none hfit]
  · unfold dicSelect
    rw [(select_run hdic s).1, refitResult_none hfit]
  · unfold cvSelect
    rw [(select_run hcv s).1, refitResult_none hfit]
  · unfold bicSelect
    exact (select_run hbic s).2

theorem lastBind_none (l : List (String × (Mat × List ℕ))) :
    lastBind l none = l.getLast?.map (fun p => p.2.1) := by
  unfold lastBind
  cases l.getLast? <;> simp

theorem lastBind_cons (p : String × (Mat × List ℕ))
    (l : List (String × (Mat × List ℕ))) (d : Option Mat) :
    lastBind (p :: l) d = lastBind l (some p.2.1) := by
  cases l with
  | nil => simp [lastBind]
  | cons a l' =>
    simp only [lastBind, List.getLast?_cons_cons]
    cases h : (a :: l').getLast? with
    | some q => simp [h]
    | none => simp at h

theorem innerOthers_hwords (c : SelCtx) :
    innerOthers c c.hwords = otherPairs c := rfl

theorem innerSum_otherPairs (o : Oracle) (m : HModel) (c : SelCtx) :
    innerSum o m (otherPairs c) = othersSum o m c := rfl

theorem dicInner_fst_indep {o : Oracle} {c : SelCtx} {m : HModel} :
    ∀ (l : List (String × (Mat × List ℕ))) (acc : ℚ × ℕ × Option Mat)
      (s t : List Call),
      ((dicInner o c m l acc) s).1 = ((dicInner o c m l acc) t).1
  | [], acc, s, t => rfl
  | p :: l, acc, s, t => by
    unfold dicInner
    by_cases hw : p.1 = c.thisWord
    · rw [if_pos hw]
      exact dicInner_fst_indep l acc s t
    · rw [if_neg hw]
      cases hsc : o.score m p.2.1 (some p.2.2) with
      | ok q =>
        rw [tbind_ok (by rw [run_doScore, hsc]),
          tbind_ok (by rw [run_doScore, hsc])]
        exact dicInner_fst_indep l _ _ _
      | error e =>
        rw [tbind_error (by rw [run_doScore, hsc]),
          tbind_error (by rw [run_doScore, hsc])]

theorem dicInner_run_ok {o : Oracle} {c : SelCtx} {m : HModel} :
    ∀ {l : List (String × (Mat × List ℕ))},
      (∀ p ∈ l, p.1 ≠ c.thisWord → ∃ q, o.score m p.2.1 (some p.2.2) = .ok q) →
      ∀ (acc : ℚ × ℕ × Option Mat) (s : List Call),
        ((dicInner o c m l acc) s).1 =
          .ok (acc.1 + innerSum o m (innerOthers c l),
               acc.2.1 + (innerOthers c l).length,
               lastBind (innerOthers c l) acc.2.2)
  | [], _, acc, s => by
    simp [dicInner, TraceM.pure, innerOthers, innerSum, lastBind]
  | p :: l, hsc, acc, s => by
    unfold dicInner
    by_cases hw : p.1 = c.thisWord
    · rw [if_pos hw]
      rw [dicInner_run_ok
        (fun p' hp' h' => hsc p' (List.mem_cons_of_mem p hp') h') acc s]
      have hfil : innerOthers c (p :: l) = innerOthers c l := by
        simp [innerOthers, List.filter_cons, hw]
      rw [hfil]
    · rw [if_neg hw]
      obtain ⟨q, hq⟩ := hsc p (List.mem_cons_self p l) hw
      rw [tbind_ok (by rw [run_doScore, hq])]
      rw [dicInner_run_ok
        (fun p' hp' h' => hsc p' (List.mem_cons_of_mem p hp') h') _ _]
      have hfil : innerOthers c (p :: l) = p :: innerOthers c l := by
        simp [innerOthers, List.filter_cons, hw]
      rw [hfil, lastBind_cons]
      have hsum : innerSum o m (p :: innerOthers c l) =
          q + innerSum o m (innerOthers c l) := by
        simp [innerSum, hq]
      rw [hsum]
      simp only [List.length_cons, Prod.mk.injEq, Except.ok.injEq]
      refine ⟨by ring, by omega, by trivial⟩

/-- Claim C2 (amended): in `SelectorDIC.select`, for a candidate whose
fit and cross-label scores succeed, the "self" term of the candidate
score is `model.score(X)` where `X` is the loop-leftover binding — the
*last other word's* matrix, scored *without* lengths — not this label's
own data; the candidate score is that value minus the mean of the other
words' scores. -/
theorem C2_dic_self_term (o : Oracle) (c : SelCtx) (best : PFloat × ℕ)
    (i : ℕ) (s : List Call) (m : HModel) (lx : Mat) (selfS : ℚ)
    (hfit : o.fit (sweepFitCall i c.X (some c.lengths)) = .ok m)
    (hsc : ∀ p ∈ c.hwords, p.1 ≠ c.thisWord →
      ∃ q, o.score m p.2.1 (some p.2.2) = .ok q)
    (hlast : lastOtherX c = some lx)
    (hself : o.score m lx none = .ok selfS) :
    ((dicBody o c best i) s).1 =
      .ok (sweepUpdate best
        (selfS - othersSum o m c / ((otherPairs c).length : ℚ)) i) := by
  unfold dicBody
  rcases hin : (dicInner o c m c.hwords (0, 0, none))
      (s ++ [.fit (sweepFitCall i c.X (some c.lengths))]) with ⟨ri, s₂⟩
  have h1 := dicInner_run_ok hsc (0, 0, none)
    (s ++ [.fit (sweepFitCall i c.X (some c.lengths))])
  rw [hin] at h1
  simp only at h1
  subst h1
  have hlast' : lastBind (innerOthers c c.hwords) (none : Option Mat) =
      some lx := by
    rw [innerOthers_hwords, lastBind_none]
    exact hlast
  have hblock : (dicTry o c best i) s =
      (.ok (sweepUpdate best
        (selfS - othersSum o m c / ((otherPairs c).length : ℚ)) i),
       s₂ ++ [.score m lx none]) := by
    unfold dicTry
    rw [bind_ok (by rw [run_doFit, hfit])]
    rw [bind_ok hin]
    dsimp only
    rw [hlast']
    dsimp only
    rw [bind_ok (by rw [run_doScore, hself])]
    rw [run_pure]
    rw [innerOthers_hwords, innerSum_otherPairs]
    norm_num
  rw [tryExcept_run_ok hblock]

/-- Claim C5 (amended): in `SelectorDIC.select`, a `ValueError` while
scoring another label aborts the whole candidate (the `except
ValueError` surrounds the entire inner loop, so the candidate is
skipped with `best` unchanged, rather than that label being excluded
from the average); and with zero other labels the loop variable `X` is
never bound, so the candidate raises an uncaught `NameError` instead of
using a zero penalty. -/
theorem C5_dic_other_failures (o : Oracle) (c : SelCtx) (best : PFloat × ℕ)
    (i : ℕ) (s : List Call) (m : HModel)
    (hfit : o.fit (sweepFitCall i c.X (some c.lengths)) = .ok m) :
    (otherPairs c = [] → ((dicBody o c best i) s).1 = .error .nameError) ∧
    (((dicInner o c m c.hwords (0, 0, none)) []).1 = .error .valueError →
      ((dicBody o c best i) s).1 = .ok best) := by
  constructor
  · intro hempty
    have hsc : ∀ p ∈ c.hwords, p.1 ≠ c.thisWord →
        ∃ q, o.score m p.2.1 (some p.2.2) = .ok q := by
      intro p hp hne
      exfalso
      have : p ∈ otherPairs c := by
        unfold otherPairs
        rw [List.mem_filter]
        exact ⟨hp, by simpa using hne⟩
      rw [hempty] at this
      exact absurd this (List.not_mem_nil p)
    unfold dicBody
    rcases hin : (dicInner o c m c.hwords (0, 0, none))
        (s ++ [.fit (sweepFitCall i c.X (some c.lengths))]) with ⟨ri, s₂⟩
    have h1 := dicInner_run_ok hsc (0, 0, none)
      (s ++ [.fit (sweepFitCall i c.X (some c.lengths))])
    rw [hin] at h1
    simp only at h1
    subst h1
    have hnone : lastBind (innerOthers c c.hwords) (none : Option Mat) =
        none := by
      rw [innerOthers_hwords, hempty]
      rfl
    have hblock : (dicTry o c best i) s = (.error .nameError, s₂) := by
      unfold dicTry
      rw [bind_ok (by rw [run_doFit, hfit])]
      rw [bind_ok hin]
      dsimp only
      rw [hnone]
      rfl
    rw [tryExcept_run_error hblock]
    rfl
  · intro hinner
    unfold dicBody
    rcases hin : (dicInner o c m c.hwords (0, 0, none))
        (s ++ [.fit (sweepFitCall i c.X (some c.lengths))]) with ⟨ri, s₂⟩
    have h1 := dicInner_fst_indep (o := o) (c := c) (m := m) c.hwords
      (0, 0, none) (s ++ [.fit (sweepFitCall i c.X (some c.lengths))]) []
    rw [hin, hinner] at h1
    simp only at h1
    subst h1
    have hblock : (dicTry o c best i) s = (.error .valueError, s₂) := by
      unfold dicTry
      rw [bind_ok (by rw [run_doFit, hfit])]
      rw [bind_error hin]
    rw [tryExcept_run_error hblock]
    simp [run_pure]

theorem ltb_irrefl (a : PFloat) : PFloat.ltb a a = false := by
  cases a <;> simp [PFloat.ltb]

theorem ltb_asymm {a b : PFloat} (h : PFloat.ltb a b = true) :
    PFloat.ltb b a = false := by
  cases a <;> cases b <;> simp_all [PFloat.ltb, not_lt] <;> linarith

theorem ltb_false_trans {a b c : PFloat} (h1 : PFloat.ltb a b = false)
    (h2 : PFloat.ltb b c = false) : PFloat.ltb a c = false := by
  cases a <;> cases b <;> cases c <;> simp_all [PFloat.ltb, not_lt] <;> linarith

theorem bicStep_self_le (b : PFloat × ℕ) (p : ℕ × Option ℚ) :
    PFloat.ltb b.1 (bicStep b p).1 = false := by
  rcases p with ⟨j, _ | q⟩
  · exact ltb_irrefl _
  · unfold bicStep bicUpdate
    by_cases hc : PFloat.ltb (.fin q) b.1 = true
    · simp only [hc, if_true]
      exact ltb_asymm hc
    · simp only [hc, if_false]
      exact ltb_irrefl _

theorem bicStep_score_le (b : PFloat × ℕ) (j : ℕ) (q : ℚ) :
    PFloat.ltb (.fin q) (bicStep b (j, some q)).1 = false := by
  unfold bicStep bicUpdate
  by_cases hc : PFloat.ltb (.fin q) b.1 = true
  · simp only [hc, if_true]
    exact ltb_irrefl _
  · simp only [hc, if_false]
    simpa using hc

theorem bicStep_cases (b : PFloat × ℕ) (p : ℕ × Option ℚ) :
    bicStep b p = b ∨ ∃ q, p.2 = some q ∧ bicStep b p = (.fin q, p.1) := by
  rcases p with ⟨j, _ | q⟩
  · exact .inl rfl
  · unfold bicStep bicUpdate
    by_cases hc : PFloat.ltb (.fin q) b.1 = true
    · simp only [hc, if_true]
      exact .inr ⟨q, rfl, rfl⟩
    · simp only [hc, if_false]
      exact .inl rfl

theorem bicPure_self_le :
    ∀ (L : List (ℕ × Option ℚ)) (b : PFloat × ℕ),
      PFloat.ltb b.1 (bicPure L b).1 = false
  | [], b => ltb_irrefl _
  | p :: L, b => by
    unfold bicPure
    rw [List.foldl_cons]
    exact ltb_false_trans (bicStep_self_le b p) (bicPure_self_le L (bicStep b p))

theorem bicPure_min :
    ∀ (L : List (ℕ × Option ℚ)) (b : PFloat × ℕ),
      ∀ p ∈ L, ∀ q, p.2 = some q → PFloat.ltb (.fin q) (bicPure L b).1 = false
  | [], _, p, hp, _, _ => absurd hp (List.not_mem_nil p)
  | p' :: L, b, p, hp, q, hq => by
    unfold bicPure
    rw [List.foldl_cons]
    rcases List.mem_cons.1 hp with rfl | hp'
    · have h1 : PFloat.ltb (.fin q) (bicStep b p).1 = false := by
        rcases p with ⟨j, po⟩
        cases hq
        exact bicStep_score_le b j q
      exact ltb_false_trans h1 (bicPure_self_le L (bicStep b p))
    · exact bicPure_min L (bicStep b p') p hp' q hq

theorem bicPure_achieved :
    ∀ (L : List (ℕ × Option ℚ)) (b : PFloat × ℕ),
      bicPure L b = b ∨
        ∃ p ∈ L, ∃ q, p.2 = some q ∧ bicPure L b = (.fin q, p.1)
  | [], b => .inl rfl
  | p' :: L, b => by
    have hrest := bicPure_achieved L (bicStep b p')
    have hcons : bicPure (p' :: L) b = bicPure L (bicStep b p') := by
      unfold bicPure
      rw [List.foldl_cons]
    rcases hrest with heq | ⟨p, hp, q, hq, heq⟩
    · rcases bicStep_cases b p' with hs | ⟨q, hq, hs⟩
      · exact .inl (by rw [hcons, heq, hs])
      · exact .inr ⟨p', List.mem_cons_self p' L, q, hq, by rw [hcons, heq, hs]⟩
    · exact .inr ⟨p, List.mem_cons_of_mem p' hp, q, hq, by rw [hcons, heq]⟩

theorem bicBody_fst {o : Oracle} {c : SelCtx} (ht : o.tame)
    (best : PFloat × ℕ) (i : ℕ) (s : List Call) :
    ((bicBody o c best i) s).1 = .ok (bicStep best (i, bicScoreOf o c i)) := by
  unfold bicBody bicScoreOf bicStep
  cases hf : o.fit (sweepFitCall i c.X none) with
  | error e =>
    have he := ht.1 _ _ hf
    subst he
    have hblock : (bicTry o c best i) s =
        (.error .valueError, s ++ [.fit (sweepFitCall i c.X none)]) := by
      unfold bicTry
      rw [bind_error (by rw [run_doFit, hf])]
    rw [tryExcept_run_error hblock]
    simp [run_pure]
  | ok m =>
    cases hs : o.score m c.X none with
    | error e =>
      have he := ht.2 _ _ _ _ hs
      subst he
      have hblock : (bicTry o c best i) s =
          (.error .valueError,
            s ++ [.fit (sweepFitCall i c.X none)] ++ [.score m c.X none]) := by
        unfold bicTry
        rw [bind_ok (by rw [run_doFit, hf])]
        rw [bind_error (by rw [run_doScore, hs])]
      rw [tryExcept_run_error hblock]
      simp [run_pure, hs]
    | ok q =>
      have hblock : (bicTry o c best i) s =
          (.ok (bicUpdate best
            (-2 * q +
              ((((i : ℤ) ^ 2 + 2 * (o.nFeatures m : ℤ) * (i : ℤ) - 1 : ℤ)) : ℚ) *
                o.nplog c.X.length) i),
            s ++ [.fit (sweepFitCall i c.X none)] ++ [.score m c.X none]) := by
        unfold bicTry
        rw [bind_ok (by rw [run_doFit, hf])]
        rw [bind_ok (by rw [run_doScore, hs])]
        rw [run_pure]
      rw [tryExcept_run_ok hblock]
      simp [hs]

/-- Claim C4: for every candidate `n` whose fit and score succeed with
`f = model.n_features` observed features and `N = len(self.X)` feature
rows, the BIC score is `-2*logL + (n^2 + 2*f*n - 1)*log(N)` (this is
`bicScoreOf`, with the parameter count exactly `n² + 2·f·n − 1`), the
sweep equals the pure fold of these scores, the chosen best score is
less than or equal to every valid candidate's score, and when finite it
is attained by the returned candidate. -/
theorem C4_bic_formula (o : Oracle) (c : SelCtx) (ht : o.tame) :
    (∀ s, ((bicSweep o c) s).1 =
      .ok (bicPure (bicTable o c) (PFloat.inf, 0)).2) ∧
    (∀ p ∈ bicTable o c, ∀ q, p.2 = some q →
      PFloat.ltb (.fin q) (bicPure (bicTable o c) (PFloat.inf, 0)).1 = false) ∧
    (∀ q, (bicPure (bicTable o c) (PFloat.inf, 0)).1 = .fin q →
      ((bicPure (bicTable o c) (PFloat.inf, 0)).2, some q) ∈ bicTable o c) := by
  refine ⟨fun s => ?_, fun p hp q hq => bicPure_min _ _ p hp q hq, fun q hq => ?_⟩
  · unfold bicSweep
    refine bindProj_fst (fun s' => ?_) s
    rw [foldM_fst (g := fun b i => bicStep b (i, bicScoreOf o c i))
      (fun b i s'' => bicBody_fst ht b i s'') (candidates c) (.inf, 0) s']
    unfold bicPure bicTable
    rw [List.foldl_map]
  · rcases bicPure_achieved (bicTable o c) (PFloat.inf, 0) with heq | ⟨p, hp, q', hq', heq⟩
    · rw [heq] at hq
      exact absurd hq (by simp)
    · rw [heq] at hq ⊢
      simp only at hq ⊢
      cases hq
      rcases p with ⟨j, po⟩
      simp only at hq' ⊢
      rw [← hq']
      exact hp

theorem dicInner_cases {o : Oracle} {c : SelCtx} {m : HModel} (ht : o.tame) :
    ∀ (l : List (String × (Mat × List ℕ))) (acc : ℚ × ℕ × Option Mat)
      (s : List Call),
      (∃ s₂, (dicInner o c m l acc) s = (.error .valueError, s₂)) ∨
      ∃ r s₂, (dicInner o c m l acc) s = (.ok r, s₂) ∧
        ((acc.2.2.isSome = true ∨ ∃ p ∈ l, p.1 ≠ c.thisWord) →
          r.2.2.isSome = true)
  | [], acc, s => by
    refine .inr ⟨acc, s, rfl, ?_⟩
    rintro (h | ⟨p, hp, _⟩)
    · exact h
    · exact absurd hp (List.not_mem_nil p)
  | p :: l, acc, s => by
    unfold dicInner
    by_cases hw : p.1 = c.thisWord
    · rw [if_pos hw]
      rcases dicInner_cases ht l acc s with ⟨s₂, heq⟩ | ⟨r, s₂, heq, himp⟩
      · exact .inl ⟨s₂, heq⟩
      · refine .inr ⟨r, s₂, heq, ?_⟩
        rintro (h | ⟨p', hp', hne⟩)
        · exact himp (.inl h)
        · rcases List.mem_cons.1 hp' with rfl | hp''
          · exact absurd hw hne
          · exact himp (.inr ⟨p', hp'', hne⟩)
    · rw [if_neg hw]
      cases hsc : o.score m p.2.1 (some p.2.2) with
      | error e =>
        have he := ht.2 _ _ _ _ hsc
        subst he
        rw [tbind_error (by rw [run_doScore, hsc])]
        exact .inl ⟨s ++ [.score m p.2.1 (some p.2.2)], rfl⟩
      | ok q =>
        rw [tbind_ok (by rw [run_doScore, hsc])]
        rcases dicInner_cases ht l (acc.1 + q, acc.2.1 + 1, some p.2.1)
            (s ++ [.score m p.2.1 (some p.2.2)]) with
          ⟨s₂, heq⟩ | ⟨r, s₂, heq, himp⟩
        · exact .inl ⟨s₂, heq⟩
        · exact .inr ⟨r, s₂, heq, fun _ => himp (.inl rfl)⟩

theorem dicBody_isOk {o : Oracle} {c : SelCtx} (ht : o.tame)
    (hother : ∃ p ∈ c.hwords, p.1 ≠ c.thisWord) (best : PFloat × ℕ) (i : ℕ)
    (s : List Call) : ∃ r, ((dicBody o c best i) s).1 = .ok r := by
  unfold dicBody
  cases hf : o.fit (sweepFitCall i c.X (some c.lengths)) with
  | error e =>
    have he := ht.1 _ _ hf
    subst he
    have hblock : (dicTry o c best i) s =
        (.error .valueError, s ++ [.fit (sweepFitCall i c.X (some c.lengths))]) := by
      unfold dicTry
      rw [bind_error (by rw [run_doFit, hf])]
    rw [tryExcept_run_error hblock]
    exact ⟨best, by simp [run_pure]⟩
  | ok m =>
    rcases dicInner_cases (m := m) ht c.hwords (0, 0, none)
        (s ++ [.fit (sweepFitCall i c.X (some c.lengths))]) with
      ⟨s₂, hin⟩ | ⟨r, s₂, hin, himp⟩
    · have hblock : (dicTry o c best i) s = (.error .valueError, s₂) := by
        unfold dicTry
        rw [bind_ok (by rw [run_doFit, hf])]
        rw [bind_error hin]
      rw [tryExcept_run_error hblock]
      exact ⟨best, by simp [run_pure]⟩
    · have hsome := himp (.inr hother)
      rcases Option.isSome_iff_exists.1 hsome with ⟨lx, hlx⟩
      cases hss : o.score m lx none with
      | error e =>
        have he := ht.2 _ _ _ _ hss
        subst he
        have hblock : (dicTry o c best i) s =
            (.error .valueError, s₂ ++ [.score m lx none]) := by
          unfold dicTry
          rw [bind_ok (by rw [run_doFit, hf])]
          rw [bind_ok hin]
          dsimp only
          rw [hlx]
          dsimp only
          rw [bind_error (by rw [run_doScore, hss])]
        rw [tryExcept_run_error hblock]
        exact ⟨best, by simp [run_pure]⟩
      | ok v =>
        have hblock : (dicTry o c best i) s =
            (.ok (sweepUpdate best (v - r.1 / (r.2.1 : ℚ)) i),
              s₂ ++ [.score m lx none]) := by
          unfold dicTry
          rw [bind_ok (by rw [run_doFit, hf])]
          rw [bind_ok hin]
          dsimp only
          rw [hlx]
          dsimp only
          rw [bind_ok (by rw [run_doScore, hss])]
          rw [run_pure]
        rw [tryExcept_run_ok hblock]
        exact ⟨_, rfl⟩

theorem cvFold_isOk {o : Oracle} {c : SelCtx} (ht : o.tame) (i : ℕ)
    (sc : List ℚ) (ti : List ℕ × List ℕ) (s : List Call) :
    ∃ r, ((cvFold o c i sc ti) s).1 = .ok r := by
  unfold cvFold
  cases hf : o.fit (sweepFitCall i (selectRows c.X ti.1) none) with
  | error e =>
    have he := ht.1 _ _ hf
    subst he
    have hblock : (cvTry o c i sc ti) s =
        (.error .valueError,
          s ++ [.fit (sweepFitCall i (selectRows c.X ti.1) none)]) := by
      unfold cvTry
      rw [bind_error (by rw [run_doFit, hf])]
    rw [tryExcept_run_error hblock]
    exact ⟨sc, by simp [run_pure]⟩
  | ok m =>
    cases hs : o.score m (selectRows c.X ti.2) none with
    | error e =>
      have he := ht.2 _ _ _ _ hs
      subst he
      have hblock : (cvTry o c i sc ti) s =
          (.error .valueError,
            s ++ [.fit (sweepFitCall i (selectRows c.X ti.1) none)] ++
              [.score m (selectRows c.X ti.2) none]) := by
        unfold cvTry
        rw [bind_ok (by rw [run_doFit, hf])]
        rw [bind_error (by rw [run_doScore, hs])]
      rw [tryExcept_run_error hblock]
      exact ⟨sc, by simp [run_pure]⟩
    | ok q =>
      have hblock : (cvTry o c i sc ti) s =
          (.ok (sc ++ [q]),
            s ++ [.fit (sweepFitCall i (selectRows c.X ti.1) none)] ++
              [.score m (selectRows c.X ti.2) none]) := by
        unfold cvTry
        rw [bind_ok (by rw [run_doFit, hf])]
        rw [bind_ok (by rw [run_doScore, hs])]
        rw [run_pure]
      rw [tryExcept_run_ok hblock]
      exact ⟨_, rfl⟩

theorem cvBody_isOk {o : Oracle} {c : SelCtx} (ht : o.tame)
    (best : PFloat × ℕ) (i : ℕ) (s : List Call) :
    ∃ r, ((cvBody o c best i) s).1 = .ok r := by
  unfold cvBody
  obtain ⟨scores, hsc1⟩ := foldM_isOk
    (fun sc ti _ s' => cvFold_isOk ht i sc ti s') [] s
  rcases hrun : (foldM (cvFold o c i) (kfoldSplit c.X.length 4) []) s with ⟨rs, t⟩
  rw [hrun] at hsc1
  simp only at hsc1
  subst hsc1
  rw [bind_ok hrun]
  by_cases hz : scores.length = 0
  · have hblock : (if scores.length = 0 then TraceM.throw .zeroDivisionError
        else pure (scores.sum / (scores.length : ℚ))) t =
        ((.error .zeroDivisionError : Except PyErr ℚ), t) := by
      rw [if_pos hz]
      rfl
    have h2 : (tryExcept
        (if scores.length = 0 then TraceM.throw .zeroDivisionError
         else pure (scores.sum / (scores.length : ℚ)))
        (· == .zeroDivisionError) (pure 0)) t = (.ok (0 : ℚ), t) := by
      rw [tryExcept_run_error hblock]
      simp [run_pure]
    rw [bind_ok h2]
    exact ⟨_, rfl⟩
  · have hblock : (if scores.length = 0 then TraceM.throw .zeroDivisionError
        else pure (scores.sum / (scores.length : ℚ))) t =
        (.ok (scores.sum / (scores.length : ℚ)), t) := by
      rw [if_neg hz]
      rfl
    rw [bind_ok (tryExcept_run_ok hblock _ _)]
    exact ⟨_, rfl⟩

theorem sweep_isOk {body : PFloat × ℕ → ℕ → TraceM (PFloat × ℕ)}
    {l : List ℕ} {init : PFloat × ℕ}
    (h : ∀ b a, a ∈ l → ∀ s, ∃ r, ((body b a) s).1 = .ok r) (s : List Call) :
    ∃ n, ((foldM body l init >>= fun r => pure r.2 : TraceM ℕ) s).1 = .ok n := by
  obtain ⟨r, hr⟩ := foldM_isOk h init s
  rcases hrun : (foldM body l init) s with ⟨rr, t⟩
  rw [hrun] at hr
  simp only at hr
  subst hr
  rw [bind_ok hrun]
  exact ⟨r.2, rfl⟩

theorem select_isOk {sw : TraceM ℕ} {o : Oracle} {c : SelCtx}
    (h : ∀ s, ∃ n, (sw s).1 = .ok n) (s : List Call) :
    ∃ r, ((sw >>= fun n => baseModel o c n) s).1 = .ok r := by
  obtain ⟨n, hn⟩ := h s
  rcases hrun : sw s with ⟨rn, t⟩
  rw [hrun] at hn
  simp only at hn
  subst hn
  rw [bind_ok hrun, baseModel_run]
  exact ⟨_, rfl⟩

/-- Claim C1 (amended): for a context with valid invariants,
`select()` of every strategy terminates normally provided every trainer
fit/score failure during the sweep is a `ValueError` (the expected
numerical failure) and — for `SelectorDIC` — the context holds at least
one label besides `this_word`.  (`SelectorConstant` needs neither
proviso: `base_model`'s bare `except` absorbs everything.) -/
theorem C1_select_total (o : Oracle) (c : SelCtx) (ht : o.tame)
    (hother : ∃ p ∈ c.hwords, p.1 ≠ c.thisWord) (hinv : c.validInvariants) :
    (∀ s, ∃ r, ((constantSelect o c) s).1 = .ok r) ∧
    (∀ s, ∃ r, ((bicSelect o c) s).1 = .ok r) ∧
    (∀ s, ∃ r, ((dicSelect o c) s).1 = .ok r) ∧
    (∀ s, ∃ r, ((cvSelect o c) s).1 = .ok r) := by
  refine ⟨fun s => ?_, fun s => ?_, fun s => ?_, fun s => ?_⟩
  · unfold constantSelect
    rw [baseModel_run]
    exact ⟨_, rfl⟩
  · unfold bicSelect
    refine select_isOk (fun s' => ?_) s
    unfold bicSweep
    exact sweep_isOk (fun b a _ s'' => ⟨_, bicBody_fst ht b a s''⟩) s'
  · unfold dicSelect
    refine select_isOk (fun s' => ?_) s
    unfold dicSweep
    exact sweep_isOk (fun b a _ s'' => dicBody_isOk ht hother b a s'') s'
  · unfold cvSelect
    refine select_isOk (fun s' => ?_) s
    unfold cvSweep
    exact sweep_isOk (fun b a _ s'' => cvBody_isOk ht b a s'') s'

section ConcreteEvaluations

attribute [local semireducible] Rat.add Rat.mul Rat.sub Rat.inv

/-- Witness for C8: on a concrete context and trainer, the BIC
selection's result is the final refit of the full data at the swept-out
count 2, appended after the sweep's trace. -/
theorem C8_final_refit_witness :
    (bicSelect oGood ctxAB) [] =
      (.ok (refitResult oGood ctxAB 2),
        ((bicSweep oGood ctxAB) []).2 ++ [.fit (baseModelCall ctxAB 2)]) :=
  (C8_final_refit oGood ctxAB).2.1 2 (((bicSweep oGood ctxAB) []).2) []
    (by decide)

/-- Witness for C3 (amended): on `ctx3` (two samples of lengths 2 and
1), the first CV fit call fits on training rows 1 and 2 — rows taken
from a row-fold of `self.X`. -/
theorem C3_cv_folds_are_row_folds_witness :
    Call.fit (sweepFitCall 2 (selectRows (SelCtx.X ctx3) [1, 2]) none) ∈
      ((cvBody oGood ctx3 (.fin 0, 0) 2) []).2 ∧
    (Call.fit (sweepFitCall 2 (selectRows (SelCtx.X ctx3) [1, 2]) none) ∈
        ([] : List Call) ∨
      ∃ ti ∈ kfoldSplit (SelCtx.X ctx3).length 4,
        Call.fit (sweepFitCall 2 (selectRows (SelCtx.X ctx3) [1, 2]) none) =
          .fit (sweepFitCall 2 (selectRows (SelCtx.X ctx3) ti.1) none) ∨
        ∃ m, Call.fit (sweepFitCall 2 (selectRows (SelCtx.X ctx3) [1, 2]) none) =
          .score m (selectRows (SelCtx.X ctx3) ti.2) none) :=
  ⟨by decide,
    C3_cv_folds_are_row_folds oGood ctx3 (.fin 0, 0) 2 [] _ (by decide)⟩

/-- Counterexample to C3 as stated: on `ctx3` the label has two whole
samples `[[1],[2]]` and `[[3]]`, yet the CV sweep fits on the row
selection `[[2],[3]]` (which cuts the first sample in half) and its
trace differs from the trace of `cvSweepSpec`, the sweep that folds
over sequence samples as the spec describes. -/
theorem C3_counterexample :
    SelCtx.validInvariants ctx3 ∧
    Call.fit (sweepFitCall 2 [[2], [3]] none) ∈ ((cvSweep oGood ctx3) []).2 ∧
    Call.fit (sweepFitCall 2 [[2], [3]] none) ∉ ((cvSweepSpec oGood ctx3) []).2 ∧
    ((cvSweep oGood ctx3) []).2 ≠ ((cvSweepSpec oGood ctx3) []).2 := by
  refine ⟨by decide, by decide, by decide, by decide⟩

/-- Claim C6 (amended): the DIC/CV update step `sweepUpdate`
(`if score > best_score or best_score == 0`) takes a strictly greater
score, keeps the first-encountered candidate on a tie at a *nonzero*
best score, but *overwrites* the incumbent whenever the current best
score is exactly `0`, whatever the new score is; concretely, a nonzero
tie on `ctxAB` keeps the first candidate 2. -/
theorem C6_tie_break (best : PFloat × ℕ) (q : ℚ) (i : ℕ) :
    (PFloat.ltb best.1 (.fin q) = true → sweepUpdate best q i = (.fin q, i)) ∧
    (best.1 = .fin q → q ≠ 0 → sweepUpdate best q i = best) ∧
    (best.1 = .fin 0 → sweepUpdate best q i = (.fin q, i)) ∧
    ((dicSweep o6 ctxAB) []).1 = .ok 2 := by
  refine ⟨fun h => ?_, fun hbest hq => ?_, fun hbest => ?_, by decide⟩
  · simp [sweepUpdate, h]
  · simp [sweepUpdate, hbest, PFloat.ltb, lt_irrefl, hq]
  · simp [sweepUpdate, hbest]

/-- Witness for C6 (amended): a nonzero tied score keeps the first
candidate, while a best score of zero is overwritten by the next
candidate. -/
theorem C6_tie_break_witness :
    sweepUpdate (.fin 7, 2) 7 3 = (.fin 7, 2) ∧
    sweepUpdate (.fin 0, 2) 7 3 = (.fin 7, 3) :=
  ⟨(C6_tie_break (.fin 7, 2) 7 3).2.1 rfl (by decide),
   (C6_tie_break (.fin 0, 2) 7 3).2.2.1 rfl⟩

/-- Counterexample to C6 as stated: on `ctxAB` with trainer `o6b` both
candidates score exactly `0`; after candidate 2 holds the best score
`0`, candidate 3's equal score *replaces* it (`best_score == 0` fires),
so the sweep returns 3, not the first-encountered 2. -/
theorem C6_counterexample :
    ((dicBody o6b ctxAB (.fin 0, 2) 3) []).1 = .ok (.fin 0, 3) ∧
    ((dicSweep o6b ctxAB) []).1 = .ok 3 :=
  ⟨by decide, by decide⟩

/-- Witness for C1 (amended): on `ctxAB` (valid invariants, one other
word) with a tame trainer, every strategy's `select` returns normally. -/
theorem C1_select_total_witness :
    (∃ r, ((constantSelect oGood ctxAB) []).1 = .ok r) ∧
    (∃ r, ((bicSelect oGood ctxAB) []).1 = .ok r) ∧
    (∃ r, ((dicSelect oGood ctxAB) []).1 = .ok r) ∧
    (∃ r, ((cvSelect oGood ctxAB) []).1 = .ok r) := by
  have h := C1_select_total oGood ctxAB
    ⟨fun fc e h => by simp [oGood] at h, fun m X l e h => by simp [oGood] at h⟩
    (by decide) (by decide)
  exact ⟨h.1 [], h.2.1 [], h.2.2.1 [], h.2.2.2 []⟩

/-- Counterexample to C1 as stated: `ctx1` satisfies the invariants,
yet when the trainer's fits fail with an exception that is not a
`ValueError` (e.g. a memory or linear-algebra error), `SelectorBIC`,
`SelectorDIC` and `SelectorCV` all propagate it out of `select()` —
only the expected `ValueError` is absorbed by the sweeps. -/
theorem C1_counterexample :
    SelCtx.validInvariants ctx1 ∧
    ((bicSelect oBad ctx1) []).1 = .error .otherError ∧
    ((dicSelect oBad ctx1) []).1 = .error .otherError ∧
    ((cvSelect oBad ctx1) []).1 = .error .otherError ∧
    ((constantSelect oBad ctx1) []).1 = .ok none :=
  ⟨by decide, by decide, by decide, by decide, by decide⟩

/-- Witness for C4: with trainer `o4` (logL −100 at n=2, −90 at n=3,
five features, `log` stubbed to 4), the table scores are
`p(2)=23 : 200+23·4=292` and `p(3)=38 : 180+38·4=332`, and the sweep
selects the minimising candidate 2. -/
theorem C4_bic_formula_witness :
    ((bicSweep o4 ctxAB) []).1 =
      .ok (bicPure (bicTable o4 ctxAB) (PFloat.inf, 0)).2 ∧
    (bicPure (bicTable o4 ctxAB) (PFloat.inf, 0)).2 = 2 ∧
    bicScoreOf o4 ctxAB 2 = some 292 ∧
    bicScoreOf o4 ctxAB 3 = some 332 :=
  ⟨(C4_bic_formula o4 ctxAB
      ⟨fun fc e h => by simp [o4] at h,
       fun m X l e h => by
        simp only [o4] at h
        split at h <;> simp at h⟩).1 [],
   by decide, by decide, by decide⟩

/-- Witness for C2 (amended): on `ctxAB` with trainer `o2`, candidate
2's DIC score uses `o2.score 2 [[3]] none = 7` (the last other word
B's matrix, scored without lengths) as the self term. -/
theorem C2_dic_self_term_witness :
    ((dicBody o2 ctxAB (.ninf, 0) 2) []).1 =
      .ok (sweepUpdate (.ninf, 0)
        (7 - othersSum o2 2 ctxAB / ((otherPairs ctxAB).length : ℚ)) 2) :=
  C2_dic_self_term o2 ctxAB (.ninf, 0) 2 [] 2 [[3]] 7
    (by decide)
    (by
      intro p hp hne
      simp only [ctxAB, List.mem_cons, List.not_mem_nil, or_false] at hp
      rcases hp with rfl | rfl
      · exact absurd rfl hne
      · exact ⟨-10, by decide⟩)
    (by decide)
    (by decide)

/-- Counterexample to C2 as stated: on `ctxAB` with trainer `o2` the
code's DIC sweep picks candidate 2 while the spec-formula sweep
(`dicSweepClaimed`, self term scored on the label's own X/lengths)
picks candidate 3; candidate 2's actual score is 17 where the claimed
formula gives 60. -/
theorem C2_counterexample :
    ((dicSweep o2 ctxAB) []).1 = .ok 2 ∧
    ((dicSweepClaimed o2 ctxAB) []).1 = .ok 3 ∧
    ((dicBody o2 ctxAB (.ninf, 0) 2) []).1 = .ok (.fin 17, 2) ∧
    ((dicBodyClaimed o2 ctxAB (.ninf, 0) 2) []).1 = .ok (.fin 60, 2) :=
  ⟨by decide, by decide, by decide, by decide⟩

/-- Witness for C5 (amended): with a single word, the DIC candidate
raises `NameError`; with another word whose scoring raises
`ValueError`, the whole candidate is skipped (best unchanged). -/
theorem C5_dic_other_failures_witness :
    ((dicBody oGood ctx1 (.ninf, 0) 2) []).1 = .error .nameError ∧
    ((dicBody oScoreFail ctxAB (.ninf, 0) 2) []).1 = .ok (.ninf, 0) :=
  ⟨(C5_dic_other_failures oGood ctx1 (.ninf, 0) 2 [] 2 (by decide)).1
      (by decide),
   (C5_dic_other_failures oScoreFail ctxAB (.ninf, 0) 2 [] 2 (by decide)).2
      (by decide)⟩

/-- Counterexample to C5 as stated: `ctx1` holds a single label with
valid invariants, its fits succeed, yet `SelectorDIC.select` raises
`NameError` (the unbound loop variable `X`) instead of completing with
a zero penalty term. -/
theorem C5_counterexample :
    SelCtx.validInvariants ctx1 ∧
    ((dicSelect oGood ctx1) []).1 = .error .nameError :=
  ⟨by decide, by decide⟩

/-- Witness for C7 (amended): with a trainer whose every fit raises
`ValueError`, on `ctx7` (range `[2, 4)`) BIC sweeps to 0, CV sweeps to
`max_n - 1 = 3`, the selection result is `None`, and the last trace
entry is the attempted refit at 0 components. -/
theorem C7_all_fail_witness :
    ((bicSweep oFailAll ctx7) []).1 = .ok 0 ∧
    ((cvSweep oFailAll ctx7) []).1 = .ok (ctx7.maxN - 1) ∧
    ((bicSelect oFailAll ctx7) []).1 = .ok none ∧
    ((bicSelect oFailAll ctx7) []).2.getLast? =
      some (.fit (baseModelCall ctx7 0)) :=
  ⟨(C7_all_fail oFailAll ctx7 (fun fc => rfl) (by decide)).1 [],
   (C7_all_fail oFailAll ctx7 (fun fc => rfl) (by decide)).2.2.1 [],
   (C7_all_fail oFailAll ctx7 (fun fc => rfl) (by decide)).2.2.2.1 [],
   (C7_all_fail oFailAll ctx7 (fun fc => rfl) (by decide)).2.2.2.2.2.2 []⟩

/-- Counterexample to C7 as stated: on `ctx7` (valid invariants,
range `[2, 4)`) with every fit failing, `SelectorCV`'s sweep returns
`best_num_components = 3`, not the claimed 0, and `SelectorBIC`'s final
refit is attempted at 0 components (it is the last trainer call) rather
than skipped. -/
theorem C7_counterexample :
    SelCtx.validInvariants ctx7 ∧
    ((cvSweep oFailAll ctx7) []).1 = .ok 3 ∧ (3 : ℕ) ≠ 0 ∧
    ((bicSelect oFailAll ctx7) []).2.getLast? =
      some (.fit (baseModelCall ctx7 0)) :=
  ⟨by decide, by decide, by decide, by decide⟩

/-- Witness for C9 (amended): a concrete sweep fit call of the BIC
sweep, which indeed carries `random_state = None`. -/
theorem C9_sweep_unseeded_witness :
    Call.fit (sweepFitCall 2 (SelCtx.X ctxAB) none) ∈
      ((bicSweep oGood ctxAB) []).2 ∧
    (sweepFitCall 2 (SelCtx.X ctxAB) none).randomState = none :=
  ⟨by decide, (C9_sweep_unseeded oGood ctxAB).1 _ (by decide)⟩

/-- Counterexample to C9 as stated: on `ctxAB` (whose seed is 14) the
BIC sweep makes a fit call whose `random_state` is `None`, not the
context's seed — the sweep fits are not governed by `context.seed`. -/
theorem C9_counterexample :
    Call.fit (sweepFitCall 2 (SelCtx.X ctxAB) none) ∈
      ((bicSweep oGood ctxAB) []).2 ∧
    (sweepFitCall 2 (SelCtx.X ctxAB) none).randomState ≠
      some ctxAB.randomState := by
  exact ⟨by decide, by decide⟩

end ConcreteEvaluations

end HmmSel
